import Mathlib

/-!
Verification of the `try-py` interactive directory picker.

The Python sources are embedded shallowly:
* `src/try_py/fuzzy.py` — fuzzy scoring (`calculate_score`) and match
  highlighting (`highlight_matches`);
* `src/try_py/selector.py` — the selection state machine (`TrySelector`);
* `src/try_py/ui.py` — the double-buffered diffing renderer (`UI`).

Python floats are idealised as exact rationals; `math.sqrt` is an explicit
function parameter `sqrt : ℚ → ℚ`, which every theorem quantifies over (none
of the settled facts depend on its values).  Machine strings are `String` /
`List Char`; `datetime` values are reduced to the only quantity the code
derives from them, the rational number of hours since modification.
-/

namespace TryPy

/-! ## Ranking engine: `fuzzy.py` -/

/-- Python `str.isalnum` restricted to the ASCII range, as used by the
word-boundary test in `calculate_score` and by Ctrl-W word deletion. -/
def pyIsAlnum (c : Char) : Bool :=
  c.isAlpha || c.isDigit

/-- Python `re.match(r"\d{4}-\d{2}-\d{2}-", text)`: does the name start with a
`DDDD-DD-DD-` date prefix? -/
def hasDatePrefix : List Char → Bool
  | a :: b :: c :: d :: '-' :: e :: f :: '-' :: g :: h :: '-' :: _ =>
    a.isDigit && b.isDigit && c.isDigit && d.isDigit &&
    e.isDigit && f.isDigit && g.isDigit && h.isDigit
  | _ => false

/-- The character-matching `while` loop of `calculate_score`
(`fuzzy.py` lines 43–70).  Walks `text` (the lowercased name) at index `i`
with `prev` the character at `i - 1` (a dummy at `i = 0`, where the code
short-circuits before reading it), consuming `query` greedily.  `lastPos` is
the index of the previous match (`-1` initially) and `score` the running
accumulator.  Returns the final score, the final `last_pos`, and the
unconsumed query characters (`query_idx < query_len` iff nonempty). -/
def scan (sqrt : ℚ → ℚ) :
    List Char → ℕ → Char → ℤ → List Char → ℚ → ℚ × ℤ × List Char
  | [], _, _, lastPos, query, score => (score, lastPos, query)
  | _ :: _, _, _, lastPos, [], score => (score, lastPos, [])
  | c :: cs, i, prev, lastPos, qc :: qs, score =>
    if c = qc then
      let s₁ := score + 1
      let s₂ := if i = 0 ∨ ¬ pyIsAlnum prev then s₁ + 1 else s₁
      let s₃ := if lastPos ≥ 0 then
          s₂ + 2 / sqrt ((((i : ℤ) - lastPos - 1 : ℤ) : ℚ) + 1)
        else s₂
      scan sqrt cs (i + 1) c (i : ℤ) qs s₃
    else
      scan sqrt cs (i + 1) c lastPos (qc :: qs) score

/-- The recency bonus `3.0 / math.sqrt(hours_since + 1)` added when `mtime`
is present (`fuzzy.py` lines 84–87); `mtime` is reduced to the hours elapsed
since modification. -/
def recencyBonus (sqrt : ℚ → ℚ) : Option ℚ → ℚ
  | some hoursSince => 3 / sqrt (hoursSince + 1)
  | none => 0

/-- The function `calculate_score(try_dir, query_down, query_chars, ctime, mtime)` from
`fuzzy.py`.  `basename` / `basenameDown` are the dict fields `"basename"` /
`"basename_down"`; `ctime` is unused by the Python body and omitted. -/
def calculate_score (sqrt : ℚ → ℚ) (basename basenameDown queryDown : String)
    (queryChars : List Char) (mtime : Option ℚ) : ℚ :=
  let text := basename.toList
  let textLower := basenameDown.toList
  let score₀ : ℚ := if hasDatePrefix text then 2 else 0
  if queryDown ≠ "" then
    let r := scan sqrt textLower 0 'a' (-1) queryChars score₀
    if r.2.2 ≠ [] then 0          -- not all query chars matched: return 0.0
    else
      let dens := if r.2.1 ≥ 0 then
          r.1 * ((queryChars.length : ℚ) / ((r.2.1 : ℚ) + 1))
        else r.1
      dens * (10 / ((text.length : ℚ) + 10)) + recencyBonus sqrt mtime
  else
    score₀ + recencyBonus sqrt mtime

/-- The `highlight_matches(text, query)` walk (`fuzzy.py` lines 103–109) on
character lists: each character of `text` that greedily consumes the next
query character is wrapped in `{b}`…`{/b}`. -/
def highlightWalk : List Char → List Char → List Char
  | [], _ => []
  | c :: cs, [] => c :: highlightWalk cs []
  | c :: cs, qc :: qs =>
    if c.toLower = qc then
      '{' :: 'b' :: '}' :: c :: '{' :: '/' :: 'b' :: '}' :: highlightWalk cs qs
    else
      c :: highlightWalk cs (qc :: qs)

/-- The function `highlight_matches(text, query)` from `fuzzy.py`: identity on empty
query, otherwise the greedy wrapping walk over `text` against the
lowercased query characters. -/
def highlight_matches (text query : String) : String :=
  if query = "" then text
  else ⟨highlightWalk text.toList query.toLower.toList⟩

/-! ## Selection controller: `selector.py` -/

/-- A directory entry (`TryDir` dataclass), reduced to the fields the scoring
and selection logic reads: `basename`, `path` (rendered to a string as the
identity key), and hours since last modification (what `calculate_score`
derives from `mtime`; `None` never occurs for a scanned entry but the code
admits it). -/
structure TryDirM where
  basename : String
  path : String
  mtimeHours : Option ℚ
  deriving DecidableEq, Repr, Inhabited

/-- The method `TrySelector._get_tries`: score every cached entry against the current
query, then — for an empty input buffer — sort all of them by descending
score, or — for a non-empty buffer — keep only strictly positive scores and
sort those.  `sorted(key=lambda t: -t["score"])` is the stable
`mergeSort` with `-a ≤ -b`. -/
def getTries (sqrt : ℚ → ℚ) (buffer : String) (all : List TryDirM) :
    List (TryDirM × ℚ) :=
  let queryDown := buffer.toLower
  let queryChars := queryDown.toList
  let scored := all.map (fun t =>
    (t, calculate_score sqrt t.basename t.basename.toLower queryDown queryChars
          t.mtimeHours))
  if buffer = "" then
    scored.mergeSort (fun a b => decide (-a.2 ≤ -b.2))
  else
    (scored.filter (fun p => decide (p.2 > 0))).mergeSort
      (fun a b => decide (-a.2 ≤ -b.2))

/-- The terminal outcome of the selector (`SelectionResult` TypedDict):
`cd` to an existing path, `mkdir` a new one, `delete` a validated batch of
`(path, basename)` pairs under a base path, or `cancel`. -/
inductive Outcome where
  | cd (path : String)
  | mkdir (path : String)
  | delete (paths : List (String × String)) (basePath : String)
  | cancel
  deriving DecidableEq, Repr

/-- The controller's mutable state (the fields of `TrySelector` the event
loop reads and writes; `scroll_offset` and the cached directory list are
render- and IO-local and appear as step inputs instead). -/
structure SelState where
  cursorPos : ℤ
  inputCursorPos : ℕ
  inputBuffer : String
  selected : Option Outcome
  deleteStatus : Option String
  deleteMode : Bool
  markedForDeletion : List String
  basePath : String
  deriving DecidableEq, Repr

/-- Python `total_items = len(tries) + (1 if show_create_new else 0)` where the
create-new row shows exactly when the input buffer is non-empty. -/
def totalItems (s : SelState) (tries : List (TryDirM × ℚ)) : ℤ :=
  (tries.length : ℤ) + (if s.inputBuffer ≠ "" then 1 else 0)

/-- Python `self.cursor_pos = max(0, min(self.cursor_pos, max(0, total_items - 1)))`
(`selector.py` line 216). -/
def clampCursor (s : SelState) (tries : List (TryDirM × ℚ)) : SelState :=
  { s with cursorPos := max 0 (min s.cursorPos (max 0 (totalItems s tries - 1))) }

/-- Python whitespace (`\s`) for the `re.sub(r"\s+", "-", …)` calls, on the
characters that can actually occur here. -/
def pyIsSpace (c : Char) : Bool :=
  c = ' ' || c = '\t' || c = '\n' || c = '\r' || c = '\x0b' || c = '\x0c'

/-- Python `re.sub(r"\s+", "-", …)`: replace each maximal whitespace run by `-`. -/
def squashWs : List Char → List Char
  | [] => []
  | c :: cs =>
    if pyIsSpace c then '-' :: squashWs (cs.dropWhile pyIsSpace)
    else c :: squashWs cs
  termination_by l => l.length
  decreasing_by
  · simpa using Nat.lt_succ_of_le (List.dropWhile_suffix pyIsSpace).length_le
  · simp

/-- The method `TrySelector._handle_create_new` with `today` standing for
`datetime.now().strftime("%Y-%m-%d")`. -/
def handleCreateNew (today : String) (s : SelState) : SelState :=
  if s.inputBuffer ≠ "" then
    let finalName : String := ⟨squashWs (today ++ "-" ++ s.inputBuffer).toList⟩
    { s with selected := some (.mkdir (s.basePath ++ "/" ++ finalName)) }
  else
    { s with selected := some .cancel }

/-- Python `s.startswith(pre)`: `pre` is a character-wise prefix of `s`. -/
def pyStartswith (s pre : String) : Bool :=
  pre.toList.isPrefixOf s.toList

/-- The backward scan of the Ctrl-W handler: starting at index `n - 1`
(argument `n` is the position *after* the scan point), step left while the
predicate holds, returning the final `pos + 1`. -/
def dropBack (p : Char → Bool) (buf : List Char) : ℕ → ℕ
  | 0 => 0
  | n + 1 => if p (buf.getD n 'a') then dropBack p buf n else n + 1

/-- The method `TrySelector._confirm_batch_delete(tries)`.  `resolve` stands for
`Path(...).resolve()` (filesystem-dependent canonicalisation) and
`confirmation` for the string obtained from the keyboard / test hooks.
Mirrors the source: nothing happens when no marked path is visible; a
non-`"YES"` answer cancels, clearing marks and delete mode; on `"YES"` the
items are validated in order against
`str(target_real).startswith(str(base_real) + "/")`, the first violation
aborting the whole batch with only an error status. -/
def confirmBatchDelete (resolve : String → String) (confirmation : String)
    (tries : List (TryDirM × ℚ)) (s : SelState) : SelState :=
  let markedItems := tries.filter (fun p => s.markedForDeletion.contains p.1.path)
  if markedItems = [] then s
  else if confirmation = "YES" then
    let baseReal := resolve s.basePath
    match markedItems.find?
        (fun p => ¬ pyStartswith (resolve p.1.path) (baseReal ++ "/")) with
    | some bad =>
      { s with deleteStatus := some ("Error: Safety check failed: " ++
          resolve bad.1.path ++ " is not inside " ++ baseReal) }
    | none =>
      let validated := markedItems.map (fun p => (resolve p.1.path, p.1.basename))
      let names := String.intercalate ", " (validated.map (·.2))
      { s with
        selected := some (.delete validated baseReal)
        deleteStatus := some ("Deleted: {strike}" ++ names ++ "{/strike}")
        markedForDeletion := []
        deleteMode := false }
  else
    { s with
      deleteStatus := some "Delete cancelled"
      markedForDeletion := []
      deleteMode := false }

/-- The printable-character guard `re.match(r"[a-zA-Z0-9\-_. ]", char)`. -/
def isPrintableKey (c : Char) : Bool :=
  c.isAlpha || c.isDigit || c = '-' || c = '_' || c = '.' || c = ' '

/-- The `match key` dispatch of `TrySelector._main_loop`
(`selector.py` lines 224–322), as a pure transition on `SelState`.  `tries`
is the list `_get_tries()` returned for this iteration, `resolve` /
`confirmation` / `today` feed the Enter sub-flows.  Keys are the raw
strings `_read_key` produces; an unrecognised key is a no-op, exactly like
an unmatched `match` subject in Python. -/
def processKey (resolve : String → String) (confirmation : String)
    (today : String) (tries : List (TryDirM × ℚ)) (key : String)
    (s : SelState) : SelState :=
  let chars := s.inputBuffer.toList
  if key = "\r" then
    if s.deleteMode ∧ s.markedForDeletion ≠ [] then
      confirmBatchDelete resolve confirmation tries s
    else if s.cursorPos < (tries.length : ℤ) then
      { s with selected := some (.cd (tries.getD s.cursorPos.toNat default).1.path) }
    else if s.inputBuffer ≠ "" then
      handleCreateNew today s
    else s
  else if key = "\x1b[A" ∨ key = "\x10" then
    { s with cursorPos := max 0 (s.cursorPos - 1) }
  else if key = "\x1b[B" ∨ key = "\x0e" then
    { s with cursorPos := min (totalItems s tries - 1) (s.cursorPos + 1) }
  else if key = "\x1b[C" ∨ key = "\x1b[D" then s
  else if key = "\x7f" ∨ key = "\x08" then
    -- Backspace; the `case "\x08"` (Ctrl-H) arm is shadowed by `"\b"` in
    -- this arm and has the same body.
    let s :=
      if s.inputCursorPos > 0 then
        { s with
          inputBuffer := ⟨chars.take (s.inputCursorPos - 1) ++
            chars.drop s.inputCursorPos⟩
          inputCursorPos := s.inputCursorPos - 1 }
      else s
    { s with cursorPos := 0 }
  else if key = "\x01" then { s with inputCursorPos := 0 }
  else if key = "\x05" then { s with inputCursorPos := chars.length }
  else if key = "\x02" then { s with inputCursorPos := s.inputCursorPos - 1 }
  else if key = "\x06" then
    { s with inputCursorPos := min chars.length (s.inputCursorPos + 1) }
  else if key = "\x0b" then
    { s with inputBuffer := ⟨chars.take s.inputCursorPos⟩ }
  else if key = "\x17" then
    if s.inputCursorPos > 0 then
      let p₁ := dropBack (fun c => ¬ pyIsAlnum c) chars s.inputCursorPos
      let newPos := dropBack pyIsAlnum chars p₁
      { s with
        inputBuffer := ⟨chars.take newPos ++ chars.drop s.inputCursorPos⟩
        inputCursorPos := newPos }
    else s
  else if key = "\x04" then
    if s.cursorPos < (tries.length : ℤ) then
      let path := (tries.getD s.cursorPos.toNat default).1.path
      let s :=
        if s.markedForDeletion.contains path then
          { s with markedForDeletion := s.markedForDeletion.erase path }
        else
          { s with
            markedForDeletion := s.markedForDeletion ++ [path]
            deleteMode := true }
      if s.markedForDeletion = [] then { s with deleteMode := false } else s
    else s
  else if key = "\x03" ∨ key = "\x1b" then
    if s.deleteMode then { s with markedForDeletion := [], deleteMode := false }
    else { s with selected := none }
  else if key.length = 1 ∧ isPrintableKey (key.toList.getD 0 ' ') then
    { s with
      inputBuffer := ⟨chars.take s.inputCursorPos ++ key.toList ++
        chars.drop s.inputCursorPos⟩
      inputCursorPos := s.inputCursorPos + 1
      cursorPos := 0 }
  else s

/-- One iteration of `TrySelector._main_loop`: recompute the scored list,
clamp the cursor, render (which consumes a pending one-shot status
message), then dispatch the key read for this iteration. -/
def loopStep (sqrt : ℚ → ℚ) (resolve : String → String) (confirmation : String)
    (today : String) (all : List TryDirM) (key : String) (s : SelState) :
    SelState :=
  let tries := getTries sqrt s.inputBuffer all
  let s := clampCursor s tries
  let s := { s with deleteStatus := none }
  processKey resolve confirmation today tries key s

/-! ## Render engine: `ui.py` -/

/-- The `TOKEN_MAP` table: the closed vocabulary of style tokens and their ANSI
expansions. -/
def tokenMap : String → Option String
  | "{b}" => some "\x1b[1;33m"
  | "{/b}" => some "\x1b[22m\x1b[39m"
  | "{dim}" => some "\x1b[90m"
  | "{text}" => some "\x1b[0m\x1b[39m"
  | "{reset}" => some "\x1b[0m\x1b[39m\x1b[49m"
  | "{/fg}" => some "\x1b[39m"
  | "{h1}" => some "\x1b[1;38;5;208m"
  | "{h2}" => some "\x1b[1;34m"
  | "{section}" => some "\x1b[1m\x1b[48;5;236m"
  | "{/section}" => some "\x1b[0m"
  | "{strike}" => some "\x1b[48;5;52m"
  | "{/strike}" => some "\x1b[49m"
  | "{clear_screen}" => some "\x1b[2J"
  | "{clear_line}" => some "\x1b[2K"
  | "{home}" => some "\x1b[H"
  | "{clear_below}" => some "\x1b[0J"
  | "{hide_cursor}" => some "\x1b[?25l"
  | "{show_cursor}" => some "\x1b[?25h"
  | "{cursor}" => some "\x1b[7m \x1b[27m"
  | _ => none

/-- Split a character list at the first `}` that precedes any newline,
returning the segment before it and the remainder after it.  This is the
span the non-greedy `\{.*?\}` can cover from a given `{` (a `.` never
matches a newline). -/
def splitAtClose : List Char → Option (List Char × List Char)
  | [] => none
  | c :: rest =>
    if c = '}' then some ([], rest)
    else if c = '\n' then none
    else
      match splitAtClose rest with
      | some (tok, rest') => some (c :: tok, rest')
      | none => none

theorem splitAtClose_length {l tok rest : List Char}
    (h : splitAtClose l = some (tok, rest)) : rest.length < l.length := by
  induction l generalizing tok rest with
  | nil => simp [splitAtClose] at h
  | cons c cs ih =>
    simp only [splitAtClose] at h
    by_cases hc : c = '}'
    · simp only [hc, if_pos rfl] at h
      cases h
      simp
    · rw [if_neg hc] at h
      by_cases hn : c = '\n'
      · simp [hn] at h
      · rw [if_neg hn] at h
        cases hsp : splitAtClose cs with
        | none => rw [hsp] at h; simp at h
        | some pr =>
          obtain ⟨tok', rest'⟩ := pr
          rw [hsp] at h
          simp only [Option.some.injEq, Prod.mk.injEq] at h
          obtain ⟨-, h2⟩ := h
          subst h2
          exact Nat.lt_succ_of_lt (ih hsp)

/-- Python `re.sub(r"\{.*?\}", f, text)` on character lists: at each `{` that has a
closing `}` before any newline, the token (braces included) is replaced by
`f token`; everything else is copied. -/
def subBraces (f : String → String) : List Char → List Char
  | [] => []
  | '{' :: rest =>
    match h : splitAtClose rest with
    | some (tok, rest') =>
      (f ⟨'{' :: tok ++ ['}']⟩).toList ++ subBraces f rest'
    | none => '{' :: subBraces f rest
  | c :: rest => c :: subBraces f rest
  termination_by l => l.length
  decreasing_by
  · simpa using Nat.lt_succ_of_lt (splitAtClose_length h)
  · simp
  · simp

/-- The method `UI.expand_tokens`: when expansion is enabled, replace each recognised
token by its ANSI sequence and keep unrecognised `{…}` spans verbatim. -/
def expandTokens (enabled : Bool) (text : String) : String :=
  if enabled then ⟨subBraces (fun tok => (tokenMap tok).getD tok) text.toList⟩
  else text

/-- The render engine's buffer state (`UI` class variables). -/
structure UIState where
  buffer : List String
  lastBuffer : List String
  currentLine : String
  expandEnabled : Bool
  forceColors : Bool
  deriving DecidableEq, Repr

/-- The method `UI.puts(text)`: append `currentLine ++ text` as a finished line. -/
def putsU (text : String) (s : UIState) : UIState :=
  { s with buffer := s.buffer ++ [s.currentLine ++ text], currentLine := "" }

/-- Buffer a whole frame of lines via `UI.puts`. -/
def putsList (lines : List String) (s : UIState) : UIState :=
  lines.foldl (fun st line => putsU line st) s

/-- The body of the diffing loop of `UI.flush` for one line index `i`
(`ui.py` lines 100–112): `c` is `buffer[i]` (or `""` past the end), `l` is
`last_buffer[i]`.  A changed (or color-forced) line is repositioned-to and
cleared when on a TTY, then, if non-empty, rewritten with tokens expanded
plus a `{reset}` trailer (and a newline when colors are forced off-TTY). -/
def lineWrites (isTty expandEnabled forceColors : Bool) (c l : String)
    (i : ℕ) : List String :=
  if c ≠ l ∨ forceColors = true then
    (if isTty then [s!"\x1b[{i + 1};1H\x1b[2K"] else []) ++
    (if c ≠ "" then
      [expandTokens expandEnabled c] ++
      (if expandEnabled then ["\x1b[0m\x1b[39m\x1b[49m"] else []) ++
      (if forceColors ∧ ¬ isTty then ["\n"] else [])
    else [])
  else []

/-- The `for i in range(max_lines)` diffing loop of `UI.flush`: walk both
frames in lockstep (padding the shorter with `""`), collecting the write
calls of `lineWrites` for each index. -/
def diffWrites (isTty expandEnabled forceColors : Bool) :
    List String → List String → ℕ → List String
  | [], [], _ => []
  | c :: cs, [], i =>
    lineWrites isTty expandEnabled forceColors c "" i ++
      diffWrites isTty expandEnabled forceColors cs [] (i + 1)
  | [], l :: ls, i =>
    lineWrites isTty expandEnabled forceColors "" l i ++
      diffWrites isTty expandEnabled forceColors [] ls (i + 1)
  | c :: cs, l :: ls, i =>
    lineWrites isTty expandEnabled forceColors c l i ++
      diffWrites isTty expandEnabled forceColors cs ls (i + 1)
  termination_by cur last _ => cur.length + last.length
  decreasing_by all_goals simp +arith [List.length_cons]

/-- The method `UI.flush(io)`: finalise the pending line, then either (non-TTY without
forced colors) strip all `{…}` spans from the newline-joined frame and
write it in one piece, or (TTY / forced colors) home the cursor when on a
TTY and rewrite exactly the changed lines; the frame becomes the new
previous frame.  Returns the sequence of `io.write` payloads and the new
state. -/
def flushU (isTty : Bool) (s : UIState) : List String × UIState :=
  let buf := if s.currentLine ≠ "" then s.buffer ++ [s.currentLine] else s.buffer
  if ¬ isTty ∧ ¬ s.forceColors then
    let plain : String := ⟨subBraces (fun _ => "") (String.intercalate "\n" buf).toList⟩
    (([plain] ++ if ¬ plain.endsWith "\n" then ["\n"] else []),
     { s with buffer := [], lastBuffer := [], currentLine := "" })
  else
    ((if isTty then ["\x1b[H"] else []) ++
       diffWrites isTty s.expandEnabled s.forceColors buf s.lastBuffer 0,
     { s with buffer := [], lastBuffer := buf, currentLine := "" })

/-! ## Auxiliary definitions used by the verification -/

/-- A date-prefixed test name, `2024-01-01-a`. -/
def dateName : String := ⟨['2', '0', '2', '4', '-', '0', '1', '-', '0', '1', '-', 'a']⟩

/-- The Delete-Mode invariant: the marked set is non-empty exactly when
`delete_mode` is set. -/
def markedIffDeleteMode (s : SelState) : Prop :=
  s.markedForDeletion ≠ [] ↔ s.deleteMode = true

/-- Remove every occurrence of the tokens `{b}` and `{/b}`, scanning left
to right (the reading of "removing all occurrences of the tokens" used to
state C10). -/
def stripBold : List Char → List Char
  | [] => []
  | c :: r =>
    if c = '{' ∧ (r.take 2 = ['b', '}'] ∨ r.take 3 = ['/', 'b', '}']) then
      if r.take 2 = ['b', '}'] then stripBold (r.drop 2) else stripBold (r.drop 3)
    else c :: stripBold r
  termination_by l => l.length
  decreasing_by all_goals (simp [List.length_drop]; try omega)

/-! ## Lemmas about the character scan -/

theorem scan_query_nil (sqrt : ℚ → ℚ) (text : List Char) (i : ℕ) (prev : Char)
    (lastPos : ℤ) (score : ℚ) :
    scan sqrt text i prev lastPos [] score = (score, lastPos, []) := by
  cases text <;> rfl

/-- The greedy scan consumes the whole query exactly when the query is a
subsequence of the scanned text (completeness of greedy subsequence
matching). -/
theorem scan_rem_nil_iff (sqrt : ℚ → ℚ) :
    ∀ (text : List Char) (i : ℕ) (prev : Char) (lastPos : ℤ)
      (query : List Char) (score : ℚ),
      (scan sqrt text i prev lastPos query score).2.2 = [] ↔
        List.Sublist query text := by
  intro text
  induction text with
  | nil =>
    intro i prev lastPos query score
    simp [scan, List.sublist_nil, eq_comm]
  | cons c cs ih =>
    intro i prev lastPos query score
    cases query with
    | nil => simp [scan, List.nil_sublist]
    | cons qc qs =>
      by_cases hc : c = qc
      · subst hc
        simp only [scan, if_pos rfl, if_true, eq_self_iff_true]
        rw [ih]
        exact (List.cons_sublist_cons).symm
      · simp only [scan, if_neg hc]
        rw [ih]
        constructor
        · intro h
          exact h.trans (List.sublist_cons_self c cs)
        · intro h
          rcases List.cons_sublist_cons'.mp h with h' | ⟨heq, -⟩
          · exact h'
          · exact absurd heq.symm hc

/-- The scan is affine in its accumulator: starting from `score` yields
`score` plus the accumulation from `0`, with identical `last_pos` and
leftover query. -/
theorem scan_shift (sqrt : ℚ → ℚ) :
    ∀ (text : List Char) (i : ℕ) (prev : Char) (lastPos : ℤ)
      (query : List Char) (score : ℚ),
      scan sqrt text i prev lastPos query score =
        (score + (scan sqrt text i prev lastPos query 0).1,
         (scan sqrt text i prev lastPos query 0).2) := by
  intro text
  induction text with
  | nil => intro i prev lastPos query score; simp [scan]
  | cons c cs ih =>
    intro i prev lastPos query score
    cases query with
    | nil => simp [scan_query_nil]
    | cons qc qs =>
      by_cases hc : c = qc
      · subst hc
        simp only [scan, if_pos rfl, if_true, eq_self_iff_true]
        have step : ∀ a b : ℚ, a = score + b →
            scan sqrt cs (i + 1) c (i : ℤ) qs a =
              (score + (scan sqrt cs (i + 1) c (i : ℤ) qs b).1,
               (scan sqrt cs (i + 1) c (i : ℤ) qs b).2) := by
          intro a b hab
          rw [ih (i + 1) c (i : ℤ) qs a, ih (i + 1) c (i : ℤ) qs b]
          refine Prod.ext ?_ rfl
          simp only
          rw [hab]; ring
        by_cases hb : i = 0 ∨ ¬ pyIsAlnum prev = true <;>
          by_cases hl : lastPos ≥ (0 : ℤ) <;>
            simp only [hb, hl, if_true, if_false, iff_true, iff_false,
              eq_self_iff_true] <;>
            exact step _ _ (by ring)
      · simp only [scan, if_neg hc]
        exact ih (i + 1) c lastPos (qc :: qs) score

/-- When a non-empty query is fully consumed, the final `last_pos` is the
index of a real match, hence non-negative. -/
theorem scan_lastPos_nonneg (sqrt : ℚ → ℚ) :
    ∀ (text : List Char) (i : ℕ) (prev : Char) (lastPos : ℤ)
      (query : List Char) (score : ℚ),
      query ≠ [] →
      (scan sqrt text i prev lastPos query score).2.2 = [] →
      0 ≤ (scan sqrt text i prev lastPos query score).2.1 := by
  intro text
  induction text with
  | nil =>
    intro i prev lastPos query score hq hrem
    simp [scan] at hrem
    exact absurd hrem hq
  | cons c cs ih =>
    intro i prev lastPos query score hq hrem
    cases query with
    | nil => exact absurd rfl hq
    | cons qc qs =>
      by_cases hc : c = qc
      · subst hc
        simp only [scan, if_pos rfl, if_true, eq_self_iff_true] at hrem ⊢
        cases qs with
        | nil =>
          rw [scan_query_nil]
          exact Int.natCast_nonneg i
        | cons q' qs' =>
          exact ih (i + 1) c (i : ℤ) (q' :: qs') _ (by simp) hrem
      · simp only [scan, if_neg hc] at hrem ⊢
        exact ih (i + 1) c lastPos (qc :: qs) score (by simp) hrem

/-! ## C1: non-subsequence queries score exactly 0 and are filtered out -/

/-- The lowercased characters of a string. -/
theorem toLower_toList (s : String) :
    s.toLower.toList = s.toList.map Char.toLower := by
  rw [String.toLower, String.map_eq]
  rfl

theorem toLower_ne_empty {s : String} (h : s ≠ "") : s.toLower ≠ "" := by
  intro hc
  apply h
  have h2 : s.toLower.data = s.data.map Char.toLower := toLower_toList s
  rw [hc] at h2
  exact String.ext (by simpa using h2.symm)

/-- C1: for a non-empty query whose lowercased characters are not a
subsequence of the lowercased candidate name, `calculate_score` returns
exactly `0` (no date-prefix or recency bonus contributes), and the
candidate is excluded from the filtered list `_get_tries` builds for a
non-empty query. -/
theorem score_zero_and_excluded_of_not_subseq
    (sqrt : ℚ → ℚ) (all : List TryDirM) (t : TryDirM) (buffer : String)
    (hb : buffer ≠ "")
    (hns : ¬ List.Sublist buffer.toLower.toList t.basename.toLower.toList) :
    calculate_score sqrt t.basename t.basename.toLower buffer.toLower
        buffer.toLower.toList t.mtimeHours = 0 ∧
    ∀ pr ∈ getTries sqrt buffer all, pr.1 ≠ t := by
  have hq : buffer.toLower ≠ "" := toLower_ne_empty hb
  have hscore : calculate_score sqrt t.basename t.basename.toLower
      buffer.toLower buffer.toLower.toList t.mtimeHours = 0 := by
    have hrem : (scan sqrt t.basename.toLower.toList 0 'a' (-1)
        buffer.toLower.toList
        (if hasDatePrefix t.basename.toList then (2 : ℚ) else 0)).2.2 ≠ [] := by
      rw [Ne, scan_rem_nil_iff]
      exact hns
    simp only [calculate_score]
    rw [if_pos hq, if_pos hrem]
  refine ⟨hscore, ?_⟩
  intro pr hpr heq
  simp only [getTries] at hpr
  rw [if_neg hb] at hpr
  have hpr' := (List.mergeSort_perm _ _).mem_iff.mp hpr
  rcases List.mem_filter.mp hpr' with ⟨hmem, hposb⟩
  have hpos : (0 : ℚ) < pr.2 := of_decide_eq_true hposb
  rcases List.mem_map.mp hmem with ⟨t', -, hteq⟩
  have h1 : pr.1 = t' := by rw [← hteq]
  have h2 : pr.2 = calculate_score sqrt t'.basename t'.basename.toLower
      buffer.toLower buffer.toLower.toList t'.mtimeHours := by rw [← hteq]
  rw [heq] at h1
  rw [h2, ← h1, hscore] at hpos
  exact lt_irrefl 0 hpos

/-- Witness for C1 at the concrete candidate `abc` and query `z`. -/
theorem score_zero_and_excluded_of_not_subseq_witness :
    (("z" : String) ≠ "" ∧
      ¬ List.Sublist "z".toLower.toList
        (TryDirM.mk "abc" "/p" none).basename.toLower.toList) ∧
    (calculate_score (fun _ => 1) (TryDirM.mk "abc" "/p" none).basename
        (TryDirM.mk "abc" "/p" none).basename.toLower "z".toLower
        "z".toLower.toList (TryDirM.mk "abc" "/p" none).mtimeHours = 0 ∧
      ∀ pr ∈ getTries (fun _ => 1) "z" [TryDirM.mk "abc" "/p" none],
        pr.1 ≠ TryDirM.mk "abc" "/p" none) :=
  ⟨⟨by decide, by simp only [toLower_toList]; decide⟩,
    score_zero_and_excluded_of_not_subseq (fun _ => 1)
      [TryDirM.mk "abc" "/p" none] (TryDirM.mk "abc" "/p" none) "z"
      (by decide) (by simp only [toLower_toList]; decide)⟩

/-! ## C2: empty query scores are pure date-prefix + recency bonuses -/

/-- C2: with the empty query, `calculate_score` is exactly the date-prefix
bonus (2 when the name starts with `DDDD-DD-DD-`, else 0) plus the recency
term `3 / sqrt(hoursSince + 1)` when a modification time is present — no
matching, density or length-penalty term contributes — and `_get_tries`
keeps every candidate (none is excluded for being unscored). -/
theorem empty_query_score_and_no_exclusion (sqrt : ℚ → ℚ) :
    (∀ (basename basenameDown : String) (mtime : Option ℚ),
      calculate_score sqrt basename basenameDown "" [] mtime =
        (if hasDatePrefix basename.toList then (2 : ℚ) else 0) +
          recencyBonus sqrt mtime) ∧
    (∀ (all : List TryDirM) (t : TryDirM), t ∈ all →
      ∃ pr ∈ getTries sqrt "" all, pr.1 = t) := by
  constructor
  · intro basename basenameDown mtime
    simp only [calculate_score]
    rw [if_neg (by simp)]
  · intro all t ht
    refine ⟨(t, calculate_score sqrt t.basename t.basename.toLower "".toLower
      "".toLower.toList t.mtimeHours), ?_, rfl⟩
    simp only [getTries, if_pos rfl]
    refine (List.mergeSort_perm _ _).mem_iff.mpr ?_
    exact List.mem_map_of_mem _ ht

/-- Witness for C2 at a date-prefixed candidate with a present
modification time. -/
theorem empty_query_score_and_no_exclusion_witness :
    (∀ (basename basenameDown : String) (mtime : Option ℚ),
      calculate_score (fun _ => 1) basename basenameDown "" [] mtime =
        (if hasDatePrefix basename.toList then (2 : ℚ) else 0) +
          recencyBonus (fun _ => 1) mtime) ∧
    (TryDirM.mk "2024-01-01-foo" "/p" (some 5) ∈
        [TryDirM.mk "2024-01-01-foo" "/p" (some 5)] ∧
      ∃ pr ∈ getTries (fun _ => 1) ""
          [TryDirM.mk "2024-01-01-foo" "/p" (some 5)],
        pr.1 = TryDirM.mk "2024-01-01-foo" "/p" (some 5)) :=
  ⟨(empty_query_score_and_no_exclusion (fun _ => 1)).1,
    List.mem_singleton.mpr rfl,
    (empty_query_score_and_no_exclusion (fun _ => 1)).2
      [TryDirM.mk "2024-01-01-foo" "/p" (some 5)]
      (TryDirM.mk "2024-01-01-foo" "/p" (some 5))
      (List.mem_singleton.mpr rfl)⟩

/-! ## C3: how the multipliers interact with the date-prefix bonus -/

/-- C3 amended: for a matching non-empty query, the final score is the
*sum* of the date-prefix bonus and the per-character accumulated match
score, multiplied by the density factor `queryLength / (lastMatchIndex+1)`
and the length penalty `10 / (nameLength+10)`; only the recency bonus is
then added on top unscaled.  (The claim as stated — the date-prefix bonus
added on top, unscaled — is refuted by `date_bonus_scaled_counterexample`.) -/
theorem calc_score_match_formula (sqrt : ℚ → ℚ)
    (basename basenameDown queryDown : String) (mtime : Option ℚ)
    (hq : queryDown ≠ "")
    (hrem : (scan sqrt basenameDown.toList 0 'a' (-1) queryDown.toList 0).2.2 = []) :
    calculate_score sqrt basename basenameDown queryDown queryDown.toList mtime =
      ((if hasDatePrefix basename.toList then (2 : ℚ) else 0) +
          (scan sqrt basenameDown.toList 0 'a' (-1) queryDown.toList 0).1) *
        ((queryDown.toList.length : ℚ) /
          (((scan sqrt basenameDown.toList 0 'a' (-1) queryDown.toList 0).2.1 : ℚ) + 1)) *
        (10 / ((basename.toList.length : ℚ) + 10)) +
      recencyBonus sqrt mtime := by
  have hqc : queryDown.toList ≠ [] := by
    intro hc
    exact hq (String.ext (by simpa using hc))
  have hlp : 0 ≤ (scan sqrt basenameDown.toList 0 'a' (-1) queryDown.toList 0).2.1 :=
    scan_lastPos_nonneg sqrt _ 0 'a' (-1) _ 0 hqc hrem
  have hshift := scan_shift sqrt basenameDown.toList 0 'a' (-1) queryDown.toList
    (if hasDatePrefix basename.toList then (2 : ℚ) else 0)
  simp only [calculate_score]
  rw [if_pos hq, hshift]
  simp only
  rw [if_neg (by simpa using hrem), if_pos hlp]

/-- C3 counterexample: at the date-prefixed name `2024-01-01-a` with query
`a` (no modification time, so no square root is ever evaluated), the code
returns `(2 + 2) · (1/12) · (10/22) = 5/33`, not the claimed
`2 · (1/12) · (10/22) + 2`: the +2 date-prefix bonus is scaled by the
density and length-penalty multipliers. -/
theorem date_bonus_scaled_counterexample :
    calculate_score (fun _ => 1) dateName dateName "a" ['a'] none ≠
      (scan (fun _ => 1) dateName.toList 0 'a' (-1) ['a'] 0).1 *
        (((['a'] : List Char).length : ℚ) /
          (((scan (fun _ => 1) dateName.toList 0 'a' (-1) ['a'] 0).2.1 : ℚ) + 1)) *
        (10 / ((dateName.toList.length : ℚ) + 10)) +
      (if hasDatePrefix dateName.toList then (2 : ℚ) else 0) +
      recencyBonus (fun _ => 1) none := by
  norm_num +decide [calculate_score, scan, pyIsAlnum, hasDatePrefix,
    recencyBonus, dateName, String.toList]

/-- Witness for the amended C3 at `2024-01-01-a` with query `a`. -/
theorem calc_score_match_formula_witness :
    (("a" : String) ≠ "" ∧
      (scan (fun _ => 1) dateName.toList 0 'a' (-1) "a".toList 0).2.2 = []) ∧
    calculate_score (fun _ => 1) dateName dateName "a" "a".toList none =
      ((if hasDatePrefix dateName.toList then (2 : ℚ) else 0) +
          (scan (fun _ => 1) dateName.toList 0 'a' (-1) "a".toList 0).1) *
        (("a".toList.length : ℚ) /
          (((scan (fun _ => 1) dateName.toList 0 'a' (-1) "a".toList 0).2.1 : ℚ) + 1)) *
        (10 / ((dateName.toList.length : ℚ) + 10)) +
      recencyBonus (fun _ => 1) none :=
  ⟨⟨by decide, by norm_num +decide [scan, pyIsAlnum, dateName, String.toList]⟩,
    calc_score_match_formula (fun _ => 1) dateName dateName "a" none
      (by decide)
      (by norm_num +decide [scan, pyIsAlnum, dateName, String.toList])⟩

/-! ## C4: the cursor is clamped after every list recomputation -/

/-- C4: at each loop iteration, after recomputing the ranked/filtered
list, the clamped highlighted index lies in `[0, totalItems - 1]`, where
`totalItems` counts the filtered candidates plus the create-new row shown
exactly when the query buffer is non-empty; with no visible items the
index is 0. -/
theorem cursor_clamped (sqrt : ℚ → ℚ) (all : List TryDirM) (s : SelState) :
    0 ≤ (clampCursor s (getTries sqrt s.inputBuffer all)).cursorPos ∧
    (0 < totalItems s (getTries sqrt s.inputBuffer all) →
      (clampCursor s (getTries sqrt s.inputBuffer all)).cursorPos ≤
        totalItems s (getTries sqrt s.inputBuffer all) - 1) ∧
    (totalItems s (getTries sqrt s.inputBuffer all) = 0 →
      (clampCursor s (getTries sqrt s.inputBuffer all)).cursorPos = 0) := by
  simp only [clampCursor]
  omega

/-- Witness for C4: one visible item (the create-new row against an empty
directory), out-of-range initial cursor. -/
theorem cursor_clamped_witness :
    0 < totalItems (SelState.mk 5 1 "a" none none false [] "/b")
        (getTries (fun _ => 1) "a" []) ∧
    (clampCursor (SelState.mk 5 1 "a" none none false [] "/b")
        (getTries (fun _ => 1) "a" [])).cursorPos ≤
      totalItems (SelState.mk 5 1 "a" none none false [] "/b")
        (getTries (fun _ => 1) "a" []) - 1 :=
  ⟨by simp +decide [totalItems, getTries],
    (cursor_clamped (fun _ => 1) [] (SelState.mk 5 1 "a" none none false [] "/b")).2.1
      (by simp +decide [totalItems, getTries])⟩

/-! ## C5: marked-for-deletion is non-empty iff the controller is in
delete mode -/

theorem confirmBatchDelete_preserves_inv (resolve : String → String)
    (conf : String) (tries : List (TryDirM × ℚ)) (s : SelState)
    (h : markedIffDeleteMode s) :
    markedIffDeleteMode (confirmBatchDelete resolve conf tries s) := by
  simp only [confirmBatchDelete]
  split_ifs with h1 h2
  · exact h
  · split
    · exact h
    · simp [markedIffDeleteMode]
  · simp [markedIffDeleteMode]

theorem processKey_preserves_inv (resolve : String → String)
    (conf today : String) (tries : List (TryDirM × ℚ)) (key : String)
    (s : SelState) (h : markedIffDeleteMode s) :
    markedIffDeleteMode (processKey resolve conf today tries key s) := by
  simp only [processKey]
  by_cases h1 : key = "\r"
  · rw [if_pos h1]
    by_cases hd : (s.deleteMode = true) ∧ s.markedForDeletion ≠ []
    · rw [if_pos hd]
      exact confirmBatchDelete_preserves_inv resolve conf tries s h
    · rw [if_neg hd]
      by_cases hcur : s.cursorPos < (tries.length : ℤ)
      · rw [if_pos hcur]; exact h
      · rw [if_neg hcur]
        by_cases hbuf : s.inputBuffer ≠ ""
        · rw [if_pos hbuf]
          simp only [handleCreateNew]
          split_ifs <;> exact h
        · rw [if_neg hbuf]; exact h
  rw [if_neg h1]
  by_cases h2 : key = "\x1b[A" ∨ key = "\x10"
  · rw [if_pos h2]; exact h
  rw [if_neg h2]
  by_cases h3 : key = "\x1b[B" ∨ key = "\x0e"
  · rw [if_pos h3]; exact h
  rw [if_neg h3]
  by_cases h4 : key = "\x1b[C" ∨ key = "\x1b[D"
  · rw [if_pos h4]; exact h
  rw [if_neg h4]
  by_cases h5 : key = "\x7f" ∨ key = "\x08"
  · rw [if_pos h5]
    by_cases hp : s.inputCursorPos > 0
    · rw [if_pos hp]; exact h
    · rw [if_neg hp]; exact h
  rw [if_neg h5]
  by_cases h6 : key = "\x01"
  · rw [if_pos h6]; exact h
  rw [if_neg h6]
  by_cases h7 : key = "\x05"
  · rw [if_pos h7]; exact h
  rw [if_neg h7]
  by_cases h8 : key = "\x02"
  · rw [if_pos h8]; exact h
  rw [if_neg h8]
  by_cases h9 : key = "\x06"
  · rw [if_pos h9]; exact h
  rw [if_neg h9]
  by_cases h10 : key = "\x0b"
  · rw [if_pos h10]; exact h
  rw [if_neg h10]
  by_cases h11 : key = "\x17"
  · rw [if_pos h11]
    by_cases hp : s.inputCursorPos > 0
    · rw [if_pos hp]; exact h
    · rw [if_neg hp]; exact h
  rw [if_neg h11]
  by_cases h12 : key = "\x04"
  · rw [if_pos h12]
    by_cases hcur : s.cursorPos < (tries.length : ℤ)
    · rw [if_pos hcur]
      by_cases hc : s.markedForDeletion.contains
          ((tries.getD s.cursorPos.toNat default).1.path) = true
      · rw [if_pos hc]
        have hne : s.markedForDeletion ≠ [] := by
          cases hm : s.markedForDeletion with
          | nil => rw [hm] at hc; simp [List.contains] at hc
          | cons a l => simp
        have hmode : s.deleteMode = true := h.mp hne
        by_cases he : (s.markedForDeletion.erase
            ((tries.getD s.cursorPos.toNat default).1.path)) = []
        · rw [if_pos he]
          show s.markedForDeletion.erase _ ≠ [] ↔ false = true
          rw [he]
          simp
        · rw [if_neg he]
          simp only [markedIffDeleteMode]
          constructor
          · intro _; exact hmode
          · intro _; exact he
      · rw [if_neg hc]
        have hne : s.markedForDeletion ++
            [(tries.getD s.cursorPos.toNat default).1.path] ≠ [] := by simp
        rw [if_neg hne]
        simp [markedIffDeleteMode, hne]
    · rw [if_neg hcur]; exact h
  rw [if_neg h12]
  by_cases h13 : key = "\x03" ∨ key = "\x1b"
  · rw [if_pos h13]
    by_cases hdm : s.deleteMode = true
    · rw [if_pos hdm]
      simp [markedIffDeleteMode]
    · rw [if_neg hdm]; exact h
  rw [if_neg h13]
  by_cases h14 : key.length = 1 ∧ isPrintableKey (key.toList.getD 0 ' ') = true
  · rw [if_pos h14]; exact h
  · rw [if_neg h14]; exact h

/-- C5: processing any input event — including every delete-confirmation
outcome (confirmed, rejected, containment-aborted) — preserves the
invariant that the marked-for-deletion set is non-empty iff the controller
is in Delete Mode. -/
theorem delete_mode_invariant_preserved (sqrt : ℚ → ℚ)
    (resolve : String → String) (conf today : String) (all : List TryDirM)
    (key : String) (s : SelState) (h : markedIffDeleteMode s) :
    markedIffDeleteMode (loopStep sqrt resolve conf today all key s) := by
  simp only [loopStep]
  exact processKey_preserves_inv _ _ _ _ _ _ h

/-- Witness for C5: a marked entry in Delete Mode, cancelled via ESC. -/
theorem delete_mode_invariant_preserved_witness :
    markedIffDeleteMode (SelState.mk 0 0 "" none none true ["/b/x"] "/b") ∧
    markedIffDeleteMode (loopStep (fun _ => 1) id "" "2024-06-01" []
      "\x1b" (SelState.mk 0 0 "" none none true ["/b/x"] "/b")) :=
  ⟨by simp [markedIffDeleteMode],
    delete_mode_invariant_preserved (fun _ => 1) id "" "2024-06-01" []
      "\x1b" (SelState.mk 0 0 "" none none true ["/b/x"] "/b")
      (by simp [markedIffDeleteMode])⟩

/-! ## C6: which editing events reset the highlighted index -/

theorem printable_singleton_ne_char {c : Char} (hc : isPrintableKey c = true)
    {d : Char} (hd : isPrintableKey d = false) :
    String.mk [c] ≠ String.mk [d] := by
  intro he
  have h' : c = d := by simpa using congrArg String.data he
  rw [h', hd] at hc
  exact absurd hc (by decide)

/-- C6 counterexample: Ctrl-K (delete to end of line) with the cursor at
buffer position 1 of `abc` shortens the query buffer from length 3 to
length 1, yet the highlighted index stays at 2 — it is not reset to 0. -/
theorem ctrlK_keeps_cursor_counterexample :
    (processKey id "" "" [] "\x0b"
        (SelState.mk 2 1 "abc" none none false [] "/b")).inputBuffer.length ≠
      (SelState.mk 2 1 "abc" none none false [] "/b").inputBuffer.length ∧
    (processKey id "" "" [] "\x0b"
        (SelState.mk 2 1 "abc" none none false [] "/b")).cursorPos ≠ 0 := by
  decide

/-- C6 amended: character insertion and delete-char-before-cursor
(Backspace `\x7f` and Ctrl-H `\x08`) reset the highlighted index to 0
unconditionally (even when the buffer length does not change), whereas
delete-to-end-of-line (Ctrl-K) and delete-previous-word (Ctrl-W) never
touch the highlighted index, even when they shorten the buffer. -/
theorem editing_keys_cursor_reset (resolve : String → String)
    (conf today : String) (tries : List (TryDirM × ℚ)) (s : SelState)
    (c : Char) (hc : isPrintableKey c = true) :
    (processKey resolve conf today tries "\x7f" s).cursorPos = 0 ∧
    (processKey resolve conf today tries "\x08" s).cursorPos = 0 ∧
    (processKey resolve conf today tries (String.mk [c]) s).cursorPos = 0 ∧
    (processKey resolve conf today tries "\x0b" s).cursorPos = s.cursorPos ∧
    (processKey resolve conf today tries "\x17" s).cursorPos = s.cursorPos := by
  refine ⟨?_, ?_, ?_, ?_, ?_⟩
  · simp +decide [processKey]
  · simp +decide [processKey]
  · simp only [processKey]
    rw [if_neg (@printable_singleton_ne_char c hc '\x0d' (by decide)),
      if_neg (by
        rintro (he | he)
        exacts [by simpa using congrArg String.data he,
          (@printable_singleton_ne_char c hc '\x10' (by decide)) he]),
      if_neg (by
        rintro (he | he)
        exacts [by simpa using congrArg String.data he,
          (@printable_singleton_ne_char c hc '\x0e' (by decide)) he]),
      if_neg (by
        rintro (he | he) <;> simpa using congrArg String.data he),
      if_neg (by
        rintro (he | he)
        exacts [(@printable_singleton_ne_char c hc '\x7f' (by decide)) he,
          (@printable_singleton_ne_char c hc '\x08' (by decide)) he]),
      if_neg (@printable_singleton_ne_char c hc '\x01' (by decide)),
      if_neg (@printable_singleton_ne_char c hc '\x05' (by decide)),
      if_neg (@printable_singleton_ne_char c hc '\x02' (by decide)),
      if_neg (@printable_singleton_ne_char c hc '\x06' (by decide)),
      if_neg (@printable_singleton_ne_char c hc '\x0b' (by decide)),
      if_neg (@printable_singleton_ne_char c hc '\x17' (by decide)),
      if_neg (@printable_singleton_ne_char c hc '\x04' (by decide)),
      if_neg (by
        rintro (he | he)
        exacts [(@printable_singleton_ne_char c hc '\x03' (by decide)) he,
          (@printable_singleton_ne_char c hc '\x1b' (by decide)) he]),
      if_pos ⟨rfl, hc⟩]
  · simp +decide [processKey]
  · simp +decide [processKey]
    split <;> rfl

/-- Witness for the amended C6 at the printable character `x`. -/
theorem editing_keys_cursor_reset_witness :
    isPrintableKey 'x' = true ∧
    ((processKey id "" "" [] "\x7f"
        (SelState.mk 3 0 "ab" none none false [] "/b")).cursorPos = 0 ∧
      (processKey id "" "" [] "\x08"
        (SelState.mk 3 0 "ab" none none false [] "/b")).cursorPos = 0 ∧
      (processKey id "" "" [] (String.mk ['x'])
        (SelState.mk 3 0 "ab" none none false [] "/b")).cursorPos = 0 ∧
      (processKey id "" "" [] "\x0b"
        (SelState.mk 3 0 "ab" none none false [] "/b")).cursorPos =
        (SelState.mk 3 0 "ab" none none false [] "/b").cursorPos ∧
      (processKey id "" "" [] "\x17"
        (SelState.mk 3 0 "ab" none none false [] "/b")).cursorPos =
        (SelState.mk 3 0 "ab" none none false [] "/b").cursorPos) :=
  ⟨by decide,
    editing_keys_cursor_reset id "" "" []
      (SelState.mk 3 0 "ab" none none false [] "/b") 'x' (by decide)⟩

/-! ## C8: path containment is all-or-nothing for a confirmed batch -/

/-- C8: a deletion outcome is produced only when every marked visible
candidate's resolved path starts with `resolvedBase ++ "/"` (strict
descendant); if any one fails the check, no deletion outcome is produced
for any item and a status message is set instead. -/
theorem batch_delete_containment (resolve : String → String) (conf : String)
    (tries : List (TryDirM × ℚ)) (s : SelState) (hsel : s.selected = none) :
    (∀ ps bp,
      (confirmBatchDelete resolve conf tries s).selected =
          some (.delete ps bp) →
      ∀ p ∈ tries.filter (fun p => s.markedForDeletion.contains p.1.path),
        pyStartswith (resolve p.1.path) (resolve s.basePath ++ "/") = true) ∧
    ((∃ p ∈ tries.filter (fun p => s.markedForDeletion.contains p.1.path),
        ¬ pyStartswith (resolve p.1.path) (resolve s.basePath ++ "/") = true) →
      (confirmBatchDelete resolve conf tries s).selected = none ∧
      (confirmBatchDelete resolve conf tries s).deleteStatus.isSome = true) := by
  simp only [confirmBatchDelete]
  split_ifs with h1 h2
  · constructor
    · intro ps bp hps
      rw [hsel] at hps
      exact absurd hps (by simp)
    · rintro ⟨p, hp, -⟩
      rw [h1] at hp
      exact absurd hp (by simp)
  · cases hf : (tries.filter (fun p => s.markedForDeletion.contains p.1.path)).find?
        (fun p => decide (¬ pyStartswith (resolve p.1.path)
          (resolve s.basePath ++ "/") = true)) with
    | some bad =>
      constructor
      · intro ps bp hps
        have hps' : s.selected = some (Outcome.delete ps bp) := hps
        rw [hsel] at hps'
        exact absurd hps' (by simp)
      · intro hviol
        exact ⟨hsel, rfl⟩
    | none =>
      have hall := List.find?_eq_none.mp hf
      constructor
      · intro ps bp hps p hp
        have := hall p hp
        simpa using this
      · rintro ⟨p, hp, hbad⟩
        have := hall p hp
        simp at this
        exact absurd this hbad
  · constructor
    · intro ps bp hps
      rw [hsel] at hps
      exact absurd hps (by simp)
    · intro hviol
      exact ⟨hsel, rfl⟩

/-- Witness for C8: a marked path (`/etc/x`) resolving outside the base
directory `/b` aborts the batch with only a status message. -/
theorem batch_delete_containment_witness :
    ((SelState.mk 0 0 "" none none true ["/etc/x"] "/b").selected = none ∧
      (∃ p ∈ ([(TryDirM.mk "x" "/etc/x" none, (1 : ℚ))]).filter
          (fun p => (["/etc/x"] : List String).contains p.1.path),
        ¬ pyStartswith (id p.1.path) (id "/b" ++ "/") = true)) ∧
    ((confirmBatchDelete id "YES" [(TryDirM.mk "x" "/etc/x" none, (1 : ℚ))]
        (SelState.mk 0 0 "" none none true ["/etc/x"] "/b")).selected = none ∧
      (confirmBatchDelete id "YES" [(TryDirM.mk "x" "/etc/x" none, (1 : ℚ))]
        (SelState.mk 0 0 "" none none true ["/etc/x"] "/b")).deleteStatus.isSome
        = true) :=
  ⟨⟨rfl, ⟨(TryDirM.mk "x" "/etc/x" none, (1 : ℚ)), by decide, by decide⟩⟩,
    (batch_delete_containment id "YES" [(TryDirM.mk "x" "/etc/x" none, (1 : ℚ))]
        (SelState.mk 0 0 "" none none true ["/etc/x"] "/b") rfl).2
      ⟨(TryDirM.mk "x" "/etc/x" none, (1 : ℚ)), by decide, by decide⟩⟩

/-! ## C9: only the literal `YES` proceeds -/

/-- C9: in the delete-confirmation sub-flow (at least one marked candidate
visible), a deletion outcome can only arise from the exact confirmation
string `YES`; `YES` together with full containment produces one; any other
string produces no deletion outcome, clears the marked set, leaves Delete
Mode and sets the transient status `Delete cancelled`. -/
theorem confirm_yes_gate (resolve : String → String) (conf : String)
    (tries : List (TryDirM × ℚ)) (s : SelState) (hsel : s.selected = none)
    (hmi : tries.filter (fun p => s.markedForDeletion.contains p.1.path) ≠ []) :
    (conf ≠ "YES" →
      (confirmBatchDelete resolve conf tries s).selected = none ∧
      (confirmBatchDelete resolve conf tries s).markedForDeletion = [] ∧
      (confirmBatchDelete resolve conf tries s).deleteMode = false ∧
      (confirmBatchDelete resolve conf tries s).deleteStatus =
        some "Delete cancelled") ∧
    (∀ ps bp,
      (confirmBatchDelete resolve conf tries s).selected =
        some (.delete ps bp) → conf = "YES") ∧
    (conf = "YES" →
      (∀ p ∈ tries.filter (fun p => s.markedForDeletion.contains p.1.path),
        pyStartswith (resolve p.1.path) (resolve s.basePath ++ "/") = true) →
      ∃ ps bp, (confirmBatchDelete resolve conf tries s).selected =
        some (.delete ps bp)) := by
  simp only [confirmBatchDelete]
  split_ifs with h1 h2
  · exact absurd h1 hmi
  · refine ⟨fun hc => absurd h2 hc, ?_, ?_⟩
    · intro ps bp _
      exact h2
    · intro _ hall
      have hf : (tries.filter (fun p => s.markedForDeletion.contains p.1.path)).find?
          (fun p => decide (¬ pyStartswith (resolve p.1.path)
            (resolve s.basePath ++ "/") = true)) = none := by
        rw [List.find?_eq_none]
        intro p hp
        simp [hall p hp]
      rw [hf]
      exact ⟨_, _, rfl⟩
  · refine ⟨fun _ => ⟨hsel, rfl, rfl, rfl⟩, ?_, fun hc => absurd hc h2⟩
    intro ps bp hps
    rw [hsel] at hps
    exact absurd hps (by simp)

/-- Witness for C9: answering `no` cancels, clears the marks and leaves
Delete Mode. -/
theorem confirm_yes_gate_witness :
    ((SelState.mk 0 0 "" none none true ["/b/x"] "/b").selected = none ∧
      ([(TryDirM.mk "x" "/b/x" none, (1 : ℚ))]).filter
        (fun p => (["/b/x"] : List String).contains p.1.path) ≠ [] ∧
      ("no" : String) ≠ "YES") ∧
    ((confirmBatchDelete id "no" [(TryDirM.mk "x" "/b/x" none, (1 : ℚ))]
        (SelState.mk 0 0 "" none none true ["/b/x"] "/b")).selected = none ∧
      (confirmBatchDelete id "no" [(TryDirM.mk "x" "/b/x" none, (1 : ℚ))]
        (SelState.mk 0 0 "" none none true ["/b/x"] "/b")).markedForDeletion
        = [] ∧
      (confirmBatchDelete id "no" [(TryDirM.mk "x" "/b/x" none, (1 : ℚ))]
        (SelState.mk 0 0 "" none none true ["/b/x"] "/b")).deleteMode = false ∧
      (confirmBatchDelete id "no" [(TryDirM.mk "x" "/b/x" none, (1 : ℚ))]
        (SelState.mk 0 0 "" none none true ["/b/x"] "/b")).deleteStatus =
        some "Delete cancelled") :=
  ⟨⟨rfl, by decide, by decide⟩,
    (confirm_yes_gate id "no" [(TryDirM.mk "x" "/b/x" none, (1 : ℚ))]
        (SelState.mk 0 0 "" none none true ["/b/x"] "/b") rfl (by decide)).1
      (by decide)⟩

/-! ## C7: flushing an identical frame writes nothing but cursor-home -/

theorem putsU_eq (l : String) (s : UIState) (h : s.currentLine = "") :
    putsU l s = { s with buffer := s.buffer ++ [l], currentLine := "" } := by
  simp [putsU, h]

theorem putsList_eq (lines : List String) :
    ∀ s : UIState, s.currentLine = "" →
      putsList lines s =
        { s with buffer := s.buffer ++ lines, currentLine := "" } := by
  induction lines with
  | nil =>
    intro s h
    obtain ⟨b, lb, cur, e, f⟩ := s
    simp only at h
    subst h
    simp [putsList]
  | cons l ls ih =>
    intro s h
    simp only [putsList, List.foldl_cons]
    rw [show (putsU l s) = { s with buffer := s.buffer ++ [l], currentLine := "" }
      from putsU_eq l s h]
    have hih := ih { s with buffer := s.buffer ++ [l], currentLine := "" } rfl
    simp only [putsList] at hih
    rw [hih]
    simp

theorem diffWrites_self (isTty expandEnabled : Bool) :
    ∀ (lines : List String) (i : ℕ),
      diffWrites isTty expandEnabled false lines lines i = [] := by
  intro lines
  induction lines with
  | nil => intro i; simp [diffWrites]
  | cons l ls ih =>
    intro i
    simp [diffWrites, lineWrites, ih]

/-- C7: on an interactive TTY with colors not forced, buffering the same
sequence of lines twice and flushing after each leaves the second flush
with nothing to rewrite: its only terminal write is the cursor-home
sequence `ESC[H`. -/
theorem second_flush_writes_only_home (lines : List String) (s : UIState)
    (hf : s.forceColors = false) (hb : s.buffer = [])
    (hc : s.currentLine = "") :
    (flushU true (putsList lines (flushU true (putsList lines s)).2)).1 =
      ["\x1b[H"] := by
  obtain ⟨b, lb, cur, e, f⟩ := s
  simp only at hf hb hc
  subst hf hb hc
  rw [putsList_eq _ _ rfl]
  simp only [flushU]
  norm_num
  rw [putsList_eq _ _ rfl]
  simp [diffWrites_self]

/-- Witness for C7 on a concrete two-line frame. -/
theorem second_flush_writes_only_home_witness :
    ((UIState.mk [] ["old"] "" true false).forceColors = false ∧
      (UIState.mk [] ["old"] "" true false).buffer = [] ∧
      (UIState.mk [] ["old"] "" true false).currentLine = "") ∧
    (flushU true (putsList ["a", "b"]
        (flushU true (putsList ["a", "b"]
          (UIState.mk [] ["old"] "" true false))).2)).1 = ["\x1b[H"] :=
  ⟨⟨rfl, rfl, rfl⟩,
    second_flush_writes_only_home ["a", "b"]
      (UIState.mk [] ["old"] "" true false) rfl rfl rfl⟩

/-! ## C10: highlighting only wraps characters -/

theorem stripBold_tokB (X : List Char) :
    stripBold ('{' :: 'b' :: '}' :: X) = stripBold X := by
  rw [stripBold]
  simp

theorem stripBold_tokSB (X : List Char) :
    stripBold ('{' :: '/' :: 'b' :: '}' :: X) = stripBold X := by
  rw [stripBold]
  simp

theorem stripBold_cons (c : Char) (r : List Char)
    (h : ¬ (c = '{' ∧ (r.take 2 = ['b', '}'] ∨ r.take 3 = ['/', 'b', '}']))) :
    stripBold (c :: r) = c :: stripBold r := by
  rw [stripBold, if_neg h]

/-- The highlight walk with an exhausted query copies the text. -/
theorem highlightWalk_nil_query : ∀ cs : List Char, highlightWalk cs [] = cs := by
  intro cs
  induction cs with
  | nil => rfl
  | cons c cs ih => simp [highlightWalk, ih]

/-- A token-free text is a fixed point of `stripBold`. -/
theorem stripBold_noTok : ∀ l : List Char,
    ¬ List.IsInfix ['{', 'b', '}'] l → ¬ List.IsInfix ['{', '/', 'b', '}'] l →
    stripBold l = l := by
  intro l
  induction l with
  | nil => intro _ _; simp [stripBold]
  | cons c r ih =>
    intro h1 h2
    have hcr : ¬ (c = '{' ∧ (r.take 2 = ['b', '}'] ∨ r.take 3 = ['/', 'b', '}'])) := by
      rintro ⟨hc, hb | hs⟩
      · apply h1
        refine List.IsPrefix.isInfix ⟨r.drop 2, ?_⟩
        rw [hc]
        conv_rhs => rw [← List.take_append_drop 2 r, hb]
        rfl
      · apply h2
        refine List.IsPrefix.isInfix ⟨r.drop 3, ?_⟩
        rw [hc]
        conv_rhs => rw [← List.take_append_drop 3 r, hs]
        rfl
    rw [stripBold_cons c r hcr]
    rw [ih (fun h => h1 (List.infix_cons h)) (fun h => h2 (List.infix_cons h))]

/-- A leading fragment of the highlight output that contains no `{`
character must be a leading fragment of the text itself: emitted wrapper
tokens always begin with `{`. -/
theorem highlightWalk_take (p : List Char) (hp : ∀ x ∈ p, x ≠ '{') :
    ∀ (cs qs : List Char),
      (highlightWalk cs qs).take p.length = p → cs.take p.length = p := by
  intro cs
  induction cs generalizing p with
  | nil =>
    intro qs h
    simp only [highlightWalk, List.take_nil] at h
    simp [← h]
  | cons c₀ cs' ih =>
    intro qs h
    cases p with
    | nil => simp
    | cons p₀ p' =>
      have hp' : ∀ x ∈ p', x ≠ '{' := fun x hx => hp x (List.mem_cons_of_mem _ hx)
      cases qs with
      | nil =>
        rw [highlightWalk, List.length_cons, List.take_succ_cons] at h
        rcases List.cons.inj h with ⟨hc, hrest⟩
        rw [List.length_cons, List.take_succ_cons, hc,
          ih p' hp' [] hrest]
      | cons qc qs' =>
        by_cases hm : c₀.toLower = qc
        · rw [highlightWalk, if_pos hm, List.length_cons, List.take_succ_cons] at h
          rcases List.cons.inj h with ⟨hc, -⟩
          exact absurd hc.symm (hp p₀ (List.mem_cons_self _ _))
        · rw [highlightWalk, if_neg hm, List.length_cons, List.take_succ_cons] at h
          rcases List.cons.inj h with ⟨hc, hrest⟩
          rw [List.length_cons, List.take_succ_cons, hc,
            ih p' hp' (qc :: qs') hrest]

/-- Stripping the wrapper tokens from the highlight output recovers the
original token-free text. -/
theorem stripBold_highlightWalk : ∀ cs : List Char,
    ¬ List.IsInfix ['{', 'b', '}'] cs → ¬ List.IsInfix ['{', '/', 'b', '}'] cs →
    ∀ qs : List Char, stripBold (highlightWalk cs qs) = cs := by
  intro cs
  induction cs with
  | nil =>
    intro _ _ qs
    cases qs <;> simp [highlightWalk, stripBold]
  | cons c cs ih =>
    intro h1 h2 qs
    have h1' : ¬ List.IsInfix ['{', 'b', '}'] cs := fun h => h1 (List.infix_cons h)
    have h2' : ¬ List.IsInfix ['{', '/', 'b', '}'] cs := fun h => h2 (List.infix_cons h)
    have ihcs := ih h1' h2'
    cases qs with
    | nil =>
      rw [highlightWalk_nil_query]
      exact stripBold_noTok (c :: cs) h1 h2
    | cons qc qs' =>
      by_cases hm : c.toLower = qc
      · rw [highlightWalk, if_pos hm, stripBold_tokB]
        have hmid : stripBold (c :: '{' :: '/' :: 'b' :: '}' :: highlightWalk cs qs') =
            c :: stripBold ('{' :: '/' :: 'b' :: '}' :: highlightWalk cs qs') := by
          apply stripBold_cons
          rintro ⟨-, hb | hs⟩
          · simp at hb
          · simp at hs
        rw [hmid, stripBold_tokSB, ihcs qs']
      · rw [highlightWalk, if_neg hm]
        have hsafe : ¬ (c = '{' ∧
            ((highlightWalk cs (qc :: qs')).take 2 = ['b', '}'] ∨
             (highlightWalk cs (qc :: qs')).take 3 = ['/', 'b', '}'])) := by
          rintro ⟨hc, hb | hs⟩
          · have htake : cs.take 2 = ['b', '}'] := by
              simpa using highlightWalk_take ['b', '}'] (by decide) cs (qc :: qs') hb
            apply h1
            refine List.IsPrefix.isInfix ⟨cs.drop 2, ?_⟩
            rw [hc]
            conv_rhs => rw [← List.take_append_drop 2 cs, htake]
            rfl
          · have htake : cs.take 3 = ['/', 'b', '}'] := by
              simpa using highlightWalk_take ['/', 'b', '}'] (by decide) cs (qc :: qs') hs
            apply h2
            refine List.IsPrefix.isInfix ⟨cs.drop 3, ?_⟩
            rw [hc]
            conv_rhs => rw [← List.take_append_drop 3 cs, htake]
            rfl
        rw [stripBold_cons _ _ hsafe, ihcs (qc :: qs')]

/-- C10 counterexample: for the text `{b}` — which already contains the
highlight token — and the query `a` (no character matches, so the output
equals the text), removing all token occurrences from the output yields
the empty string, not the original text. -/
theorem highlight_strip_counterexample :
    stripBold ((highlight_matches ⟨['{', 'b', '}']⟩ ⟨['a']⟩).toList) ≠
      (⟨['{', 'b', '}']⟩ : String).toList := by
  have h1 : highlight_matches ⟨['{', 'b', '}']⟩ ⟨['a']⟩ =
      ⟨highlightWalk ['{', 'b', '}'] ['a']⟩ := by
    rw [highlight_matches, if_neg (by decide)]
    have : (⟨['a']⟩ : String).toLower.toList = ['a'] := by
      rw [toLower_toList]; decide
    rw [show (⟨['a']⟩ : String).toLower.toList = ['a'] from this]
    rfl
  rw [h1]
  show stripBold (highlightWalk ['{', 'b', '}'] ['a']) ≠ ['{', 'b', '}']
  rw [show highlightWalk ['{', 'b', '}'] ['a'] = ['{', 'b', '}'] by
    norm_num +decide [highlightWalk]]
  rw [show stripBold ['{', 'b', '}'] = [] from (stripBold_tokB []).trans
    (by simp [stripBold])]
  decide

/-- C10 amended: for every text that does not itself contain `{b}` or
`{/b}` as a substring, removing all occurrences of the two tokens from the
output of `highlight_matches` recovers exactly the original text — the
walk only wraps characters, never reorders, drops or alters them — and
for the empty query the output equals the input unchanged (for every
text). -/
theorem highlight_strip_roundtrip (text query : String) :
    (¬ List.IsInfix ['{', 'b', '}'] text.toList →
      ¬ List.IsInfix ['{', '/', 'b', '}'] text.toList →
      stripBold (highlight_matches text query).toList = text.toList) ∧
    highlight_matches text "" = text := by
  constructor
  · intro h1 h2
    by_cases hq : query = ""
    · rw [highlight_matches, if_pos hq]
      exact stripBold_noTok _ h1 h2
    · rw [highlight_matches, if_neg hq]
      exact stripBold_highlightWalk _ h1 h2 _
  · simp [highlight_matches]

/-- Witness for the amended C10 at text `ab-c`, query `b`. -/
theorem highlight_strip_roundtrip_witness :
    (¬ List.IsInfix ['{', 'b', '}'] ("ab-c" : String).toList ∧
      ¬ List.IsInfix ['{', '/', 'b', '}'] ("ab-c" : String).toList) ∧
    (stripBold (highlight_matches "ab-c" "b").toList = ("ab-c" : String).toList ∧
      highlight_matches "ab-c" "" = "ab-c") :=
  ⟨⟨by decide, by decide⟩,
    ⟨(highlight_strip_roundtrip "ab-c" "b").1 (by decide) (by decide),
      (highlight_strip_roundtrip "ab-c" "b").2⟩⟩

end TryPy
